import Mathlib

/-!
# Fixed-shape matrices (Task1.cpp) and `SumSequence` (Task2.cpp)

A shallow embedding of the class template `Matrix<T, Rows, Cols>` of `Task1.cpp`, of its
specialisation `Matrix<int, N, 1>`, of the operations they define, and of the metafunction
`SumSequence<n, k>` of `Task2.cpp`, followed by the properties proved about them.

* `std::vector` of a fixed size is a `Mathlib.Vector`; the private member `data` is the only
  field that carries run-time information.
* A `throw std::out_of_range(...)` is the error branch of `Except Failure`; a failing
  `static_assert` is recorded in the same way for the function-level assertion of
  `operator*`, and as a field of the structure for the class-level assertion (a type whose
  assertion fails has no values).
* A declaration the compiler rejects for another reason (template arguments that do not
  match, overflow in a constant expression, a chain of instantiations that does not end) is
  the error branch of `Except Rejection`.
* `size_t` arguments of the bounds-checked `operator()` are natural numbers; the loop
  counters, which the loop conditions keep below the bound, are `Fin`.
* The element type `T` is generic; value-initialisation of an arithmetic `T` is `0`. Values
  of the machine type `int` are integers, and a place where the machine result can differ
  from the exact one says so explicitly: `int_mul` for a product formed at run time,
  `constexpr_int` for a constant expression, `double_round` for a sum stored in a `double`.
* `Matrix T Rows Cols` embeds the primary template. For `T = int` and `Cols = 1` the compiler
  selects the specialisation, embedded as `MatrixIntN1`, which has single-index access and
  `Norm` and none of the operators of the primary template.
-/

namespace HW3

/-- The two ways an operation can fail to produce a value. -/
inductive Failure where
  /-- a `static_assert` rejected the instantiation -/
  | static_assert (msg : String)
  /-- `std::out_of_range` was thrown -/
  | out_of_range (msg : String)
  deriving DecidableEq

/-- A declaration the compiler rejects for another reason than a `static_assert`. -/
inductive Rejection where
  /-- a template-id whose arguments do not match the parameters of the template -/
  | template_arguments
  /-- "overflow in constant expression": a constant expression leaves its type -/
  | constant_overflow
  /-- a chain of instantiations that has not ended within the depth allowed -/
  | instantiation_depth
  deriving DecidableEq

/-- The loop `for (size_t i = 0; i < n; ++i) body`, threading the state the body mutates:
iterations `0 .. n-1` run in increasing order, and a failing iteration ends the loop. -/
def forLoop {m : Type → Type} [Monad m] {σ : Type} :
    (n : Nat) → (Fin n → σ → m σ) → σ → m σ
  | 0, _, s => pure s
  | n + 1, body, s => forLoop n (fun i => body i.castSucc) s >>= body (Fin.last n)

/-! ## The primary template -/

/-- The class `Matrix<T, Rows, Cols>`: the member `data`, a vector of `Rows` vectors of
`Cols` elements, and the class-level `static_assert(Rows > 0 && Cols > 0)`. -/
structure Matrix (T : Type) (Rows Cols : Nat) where
  data : Mathlib.Vector (Mathlib.Vector T Cols) Rows
  static_assert_dims : Rows > 0 ∧ Cols > 0

section primary

variable {T : Type} {Rows Cols R C : Nat}

instance [DecidableEq T] : DecidableEq (Matrix T Rows Cols) := fun a b =>
  decidable_of_iff (a.data = b.data) (by cases a; cases b; simp)

/-- The constructor `Matrix() : data(Rows, std::vector<T>(Cols)) {}`: every element is
value-initialised. -/
def Matrix.ctor [Zero T] (h : Rows > 0 ∧ Cols > 0) : Matrix T Rows Cols :=
  ⟨Mathlib.Vector.replicate Rows (Mathlib.Vector.replicate Cols 0), h⟩

/-- The unchecked read `data[i][j]`. -/
def Matrix.elem (self : Matrix T Rows Cols) (i : Fin Rows) (j : Fin Cols) : T :=
  (self.data.get i).get j

/-- The store through a reference to `data[i][j]`. -/
def Matrix.assign (self : Matrix T Rows Cols) (cell : Fin Rows × Fin Cols) (v : T) :
    Matrix T Rows Cols :=
  ⟨self.data.set cell.1 ((self.data.get cell.1).set cell.2 v), self.static_assert_dims⟩

/-- The non-const `T& operator()(size_t row, size_t col)`: the bounds check, then a reference
to `data[row][col]`, which is the checked pair of indices. -/
def Matrix.operator_call (_self : Matrix T Rows Cols) (row col : Nat) :
    Except Failure (Fin Rows × Fin Cols) :=
  if h : row ≥ Rows ∨ col ≥ Cols then
    .error (.out_of_range "Matrix indices out of range")
  else
    .ok (⟨row, by omega⟩, ⟨col, by omega⟩)

/-- The const `const T& operator()(size_t row, size_t col) const`, read at once. -/
def Matrix.operator_call_const (self : Matrix T Rows Cols) (row col : Nat) :
    Except Failure T :=
  if h : row ≥ Rows ∨ col ≥ Cols then
    .error (.out_of_range "Matrix indices out of range")
  else
    .ok (self.elem ⟨row, by omega⟩ ⟨col, by omega⟩)

/-- The statement `M(row, col) = v;` on a non-const matrix. -/
def Matrix.write (self : Matrix T Rows Cols) (row col : Nat) (v : T) :
    Except Failure (Matrix T Rows Cols) := do
  let cell ← self.operator_call row col
  pure (self.assign cell v)

/-- The statement `M(row, col) = v;` together with the object it acts on: what the
statement reports and the matrix it leaves. When `operator()` throws, no reference exists
and nothing is stored. -/
def Matrix.write_stmt (self : Matrix T Rows Cols) (row col : Nat) (v : T) :
    Except Failure Unit × Matrix T Rows Cols :=
  match self.operator_call row col with
  | .error e => (.error e, self)
  | .ok cell => (.ok (), self.assign cell v)

/-- The member `Transpose()` as the source declares it:
`Matrix<Cols, Rows> Transpose() const`, with the local `Matrix<Cols, Rows> result;`. The
template `Matrix` takes a type and two sizes, and `Matrix<Cols, Rows>` gives it a size where
the type belongs and one argument too few. The declaration is ill-formed: the compiler
rejects it whatever the object holds, and the loop `result(j, i) = data[i][j]` is never
reached. The type of the matrix that the rejected member would have returned is the
`Cols x Rows` one. -/
def Matrix.Transpose (_self : Matrix T Rows Cols) : Except Rejection (Matrix T Cols Rows) :=
  .error .template_arguments

/-- The member template `operator*(const Matrix<T, R, C>& other)`: the
`static_assert(Cols == R)`, then the triple loop `result(i, j) += data[i][k] * other(k, j)`.
The right operand of `+=` is evaluated before the left one. -/
def Matrix.operator_mul [Zero T] [Add T] [Mul T] (self : Matrix T Rows Cols)
    (other : Matrix T R C) : Except Failure (Matrix T Rows C) :=
  if Cols = R then
    forLoop Rows (fun i result =>
      forLoop C (fun j result =>
        forLoop Cols (fun k result => do
          let rhs ← other.operator_call_const k.val j.val
          let cell ← result.operator_call i.val j.val
          pure (result.assign cell (result.elem cell.1 cell.2 + self.elem i k * rhs)))
          result) result)
      (Matrix.ctor ⟨self.static_assert_dims.1, other.static_assert_dims.2⟩)
  else
    .error (.static_assert "Invalid matrix dimensions for multiplication")

/-- The member `operator+`: `result(i, j) = data[i][j] + other(i, j)`. -/
def Matrix.operator_add [Zero T] [Add T] (self other : Matrix T Rows Cols) :
    Except Failure (Matrix T Rows Cols) :=
  forLoop Rows (fun i result =>
    forLoop Cols (fun j result => do
      let rhs ← other.operator_call_const i.val j.val
      let cell ← result.operator_call i.val j.val
      pure (result.assign cell (self.elem i j + rhs))) result)
    (Matrix.ctor self.static_assert_dims)

/-- The member `operator-`: `result(i, j) = data[i][j] - other(i, j)`. -/
def Matrix.operator_sub [Zero T] [Sub T] (self other : Matrix T Rows Cols) :
    Except Failure (Matrix T Rows Cols) :=
  forLoop Rows (fun i result =>
    forLoop Cols (fun j result => do
      let rhs ← other.operator_call_const i.val j.val
      let cell ← result.operator_call i.val j.val
      pure (result.assign cell (self.elem i j - rhs))) result)
    (Matrix.ctor self.static_assert_dims)

/-- The member `operator*(const T& scalar)`: `result(i, j) = data[i][j] * scalar`. -/
def Matrix.operator_mul_scalar [Zero T] [Mul T] (self : Matrix T Rows Cols) (scalar : T) :
    Except Failure (Matrix T Rows Cols) :=
  forLoop Rows (fun i result =>
    forLoop Cols (fun j result => do
      let cell ← result.operator_call i.val j.val
      pure (result.assign cell (self.elem i j * scalar))) result)
    (Matrix.ctor self.static_assert_dims)

end primary

/-! ## The matrices of `main` -/

/-- The matrix `A` of `main`: `Matrix<int, 2, 3> A;` and its six assignments. No sum or
product formed from the matrices of `main` leaves the range of `int`. -/
def main_A : Except Failure (Matrix Int 2 3) := do
  let A : Matrix Int 2 3 := Matrix.ctor (by decide)
  let A ← A.write 0 0 1
  let A ← A.write 0 1 2
  let A ← A.write 0 2 3
  let A ← A.write 1 0 4
  let A ← A.write 1 1 5
  let A ← A.write 1 2 6
  pure A

/-- The matrix `B` of `main`: `Matrix<int, 3, 2> B;` and its six assignments. -/
def main_B : Except Failure (Matrix Int 3 2) := do
  let B : Matrix Int 3 2 := Matrix.ctor (by decide)
  let B ← B.write 0 0 1
  let B ← B.write 0 1 2
  let B ← B.write 1 0 3
  let B ← B.write 1 1 4
  let B ← B.write 2 0 5
  let B ← B.write 2 1 6
  pure B

/-- The statement `Matrix<int, 2, 2> C = A * B;` of `main`. -/
def main_C : Except Failure (Matrix Int 2 2) := do
  let A ← main_A
  let B ← main_B
  A.operator_mul B

/-! ## The specialisation `Matrix<int, N, 1>` -/

/-- The least value of `int` (32 bits, two's complement). -/
def INT_MIN : Int := -2147483648

/-- The greatest value of `int`. -/
def INT_MAX : Int := 2147483647

/-- The product of two `int` values as the machine forms it: the exact product reduced
modulo `2^32` into the range of `int`. It is the exact product whenever that fits. -/
def int_mul (a b : Int) : Int := (a * b + 2147483648) % 4294967296 - 2147483648

/-- The number of binary digits of `x`, for `x < 2 ^ fuel`. -/
def bit_length : Nat → Nat → Nat
  | 0, _ => 0
  | fuel + 1, x => if x = 0 then 0 else bit_length fuel (x / 2) + 1

/-- The `double` nearest to the whole number `z`, ties going to the even significand: what
a `double` addition of two whole numbers with exact sum `z` stores. Whole numbers below
`2^53` in absolute value are values of `double`; above, `e` binary digits are dropped to
leave a significand of 53, for `z` below `2^128` in absolute value. -/
def double_round (z : Int) : Int :=
  if z.natAbs < 2 ^ 53 then z
  else
    let e := bit_length 128 z.natAbs - 53
    let q := z.natAbs / 2 ^ e
    let r := z.natAbs % 2 ^ e
    let m := if 2 * r > 2 ^ e ∨ (2 * r = 2 ^ e ∧ q % 2 = 1) then q + 1 else q
    z.sign * ((m * 2 ^ e : Nat) : Int)

/-- The class `Matrix<int, N, 1>`: the member `data`, a vector of `N` values of type `int`,
and the class-level `static_assert(N > 0)`. -/
structure MatrixIntN1 (N : Nat) where
  data : Mathlib.Vector Int N
  static_assert_N : N > 0

section specialisation

variable {N : Nat}

instance : DecidableEq (MatrixIntN1 N) := fun a b =>
  decidable_of_iff (a.data = b.data) (by cases a; cases b; simp)

/-- The constructor `Matrix() : data(N, 0) {}`. -/
def MatrixIntN1.ctor (h : N > 0) : MatrixIntN1 N :=
  ⟨Mathlib.Vector.replicate N 0, h⟩

/-- The unchecked read `data[i]`. -/
def MatrixIntN1.elem (self : MatrixIntN1 N) (i : Fin N) : Int :=
  self.data.get i

/-- The store through a reference to `data[i]`. -/
def MatrixIntN1.assign (self : MatrixIntN1 N) (cell : Fin N) (v : Int) : MatrixIntN1 N :=
  ⟨self.data.set cell v, self.static_assert_N⟩

/-- The non-const `int& operator()(size_t index)`: the bounds check, then a reference to
`data[index]`, which is the checked index. -/
def MatrixIntN1.operator_call (_self : MatrixIntN1 N) (index : Nat) : Except Failure (Fin N) :=
  if h : index ≥ N then
    .error (.out_of_range "Matrix index out of range")
  else
    .ok ⟨index, by omega⟩

/-- The const `const int& operator()(size_t index) const`, read at once. -/
def MatrixIntN1.operator_call_const (self : MatrixIntN1 N) (index : Nat) : Except Failure Int :=
  if h : index ≥ N then
    .error (.out_of_range "Matrix index out of range")
  else
    .ok (self.elem ⟨index, by omega⟩)

/-- The statement `v(index) = x;` on a non-const vector. -/
def MatrixIntN1.write (self : MatrixIntN1 N) (index : Nat) (x : Int) :
    Except Failure (MatrixIntN1 N) := do
  let cell ← self.operator_call index
  pure (self.assign cell x)

/-- The value of the local `sum` of `Norm()` when the loop `sum += data[i] * data[i]` ends,
the number handed to `std::sqrt`. Each product is formed in `int` and then converted to
`double`, which holds every value of `int`; the accumulator is a `double` holding a whole
number, written as that number, and each addition stores the `double` nearest to the exact
sum. -/
def MatrixIntN1.Norm_sum (self : MatrixIntN1 N) : Int :=
  Id.run (forLoop N
    (fun i sum => pure (double_round (sum + int_mul (self.elem i) (self.elem i)))) 0)

/-- The statement `v(index) = x;` together with the object it acts on: what the statement
reports and the vector it leaves. -/
def MatrixIntN1.write_stmt (self : MatrixIntN1 N) (index : Nat) (x : Int) :
    Except Failure Unit × MatrixIntN1 N :=
  match self.operator_call index with
  | .error e => (.error e, self)
  | .ok cell => (.ok (), self.assign cell x)

end specialisation

/-! ## `std::sqrt` and `Norm`

`std::sqrt` is a function of the C++ library, not of the repository. On `double` (IEEE 754
binary64) it is correctly rounded: it returns the `double` nearest to the real square root.
A finite `double` is written as the rational number it stands for, not-a-number as `none`. -/

/-- The integer part of the square root of `y`, built one binary digit at a time from digit
`b - 1` down to digit `0`; it is the integer part for `y < 4 ^ b`. -/
def isqrt_bits : Nat → Nat → Nat → Nat
  | 0, _, r => r
  | b + 1, y, r =>
    if (r + 2 ^ b) * (r + 2 ^ b) ≤ y then isqrt_bits b y (r + 2 ^ b) else isqrt_bits b y r

/-- The correctly rounded square root of a whole number `x` with `0 < x < 2 ^ 64`, as a
significand `m` of 53 binary digits and a scale `k`: the result is `m / 2 ^ k`. With
`y = x * 4 ^ k` and `f` the integer part of the root of `y`, the root of `y` lies nearer to
`f + 1` than to `f` exactly when `y - f * f > f`; a tie cannot occur. -/
def sqrt_significand (x : Nat) : Nat × Nat :=
  let e := (bit_length 64 x - 1) / 2
  let k := 52 - e
  let y := x * 4 ^ k
  let f := isqrt_bits 64 y 0
  (if y - f * f > f then f + 1 else f, k)

/-- The library function `std::sqrt` at a `double` that holds the whole number `x`:
not-a-number below zero, zero at zero, the correctly rounded root above. -/
def std_sqrt (x : Int) : Option ℚ :=
  if x < 0 then none
  else if x = 0 then some 0
  else some ((sqrt_significand x.toNat).1 / 2 ^ (sqrt_significand x.toNat).2)

/-- The member `Norm()` of `Matrix<int, N, 1>`: `return std::sqrt(sum);` after the loop. -/
def MatrixIntN1.Norm {N : Nat} (self : MatrixIntN1 N) : Option ℚ :=
  std_sqrt self.Norm_sum

/-- The object `vector` of `main`: `Matrix<int, 3, 1> vector;` and its three assignments. -/
def main_vector : Except Failure (MatrixIntN1 3) := do
  let vector : MatrixIntN1 3 := MatrixIntN1.ctor (by decide)
  let vector ← vector.write 0 1
  let vector ← vector.write 1 2
  let vector ← vector.write 2 3
  pure vector

/-- A one-element vector holding `65536`: `Matrix<int, 1, 1> v; v(0) = 65536;`. -/
def overflow_vector : Except Failure (MatrixIntN1 1) := do
  let v : MatrixIntN1 1 := MatrixIntN1.ctor (by decide)
  v.write 0 65536

/-- A two-element vector holding `3` and `4`:
`Matrix<int, 2, 1> v; v(0) = 3; v(1) = 4;`. -/
def vector_3_4 : Except Failure (MatrixIntN1 2) := do
  let v : MatrixIntN1 2 := MatrixIntN1.ctor (by decide)
  let v ← v.write 0 3
  let v ← v.write 1 4
  pure v

/-! ## The metafunction `SumSequence` (Task2.cpp) -/

/-- A constant expression of type `int` with the exact value `z`: its value when `z` is a
value of `int`, a rejected program otherwise. -/
def constexpr_int (z : Int) : Except Rejection Int :=
  if INT_MIN ≤ z ∧ z ≤ INT_MAX then .ok z else .error .constant_overflow

/-- The member `SumSequence<n, k>::value`, for template arguments `n` and `k` of type `int`.
Instantiating the primary template instantiates `SumSequence<n, k - 1>`; the partial
specialisation `SumSequence<n, 1>` ends the chain. `fuel` is the depth of instantiation
allowed. The initialiser `n * SumSequence<n, k - 1>::value + n * (k == 1 ? 0 : 1)` is a
constant expression of type `int`, and so are its two products and the argument `k - 1`. -/
def SumSequence : Nat → Int → Int → Except Rejection Int
  | 0, _, _ => .error .instantiation_depth
  | fuel + 1, n, k =>
    if k = 1 then .ok n
    else do
      let k1 ← constexpr_int (k - 1)
      let value ← SumSequence fuel n k1
      let left ← constexpr_int (n * value)
      let right ← constexpr_int (n * (if k = 1 then 0 else 1))
      constexpr_int (left + right)

/-! ## Loops -/

section loops

variable {σ ε ι T : Type}

theorem forLoop_succ (n : Nat) (body : Fin (n + 1) → σ → Except ε σ) (s : σ) :
    forLoop (n + 1) body s
      = forLoop n (fun i => body i.castSucc) s >>= body (Fin.last n) := rfl

/-- Three iterations, written out: the iterations run in the order `0`, `1`, `2`, each on the
state the one before it left. -/
theorem forLoop_three (body : Fin 3 → σ → Except ε σ) (s : σ) :
    forLoop 3 body s = (body 0 s >>= body 1) >>= body 2 := rfl

/-- A failing iteration ends the loop with its error. -/
theorem forLoop_error (body : Fin 2 → σ → Except ε σ) (s : σ) (e : ε)
    (h : body 0 s = .error e) : forLoop 2 body s = .error e := by
  rw [forLoop_succ, forLoop_succ]
  show (body 0 s >>= body 1) = .error e
  rw [h]; rfl

/-- A loop none of whose iterations can fail runs to the end. -/
theorem forLoop_ok :
    ∀ (n : Nat) (body : Fin n → σ → Except ε σ),
      (∀ k s, ∃ s2, body k s = .ok s2) → ∀ s, ∃ s2, forLoop n body s = .ok s2 := by
  intro n
  induction n with
  | zero => intro body _ s; exact ⟨s, rfl⟩
  | succ n ih =>
    intro body hbody s
    obtain ⟨s1, h1⟩ := ih (fun k => body k.castSucc) (fun k s => hbody k.castSucc s) s
    obtain ⟨s2, h2⟩ := hbody (Fin.last n) s1
    exact ⟨s2, by rw [forLoop_succ, h1]; exact h2⟩

/-- A loop whose iteration `k` rewrites exactly the cells `S k` (disjoint from the cells of
the other iterations), each cell `x` from `v` to `G x v`, runs to the end, rewrites every
cell of some `S k` once, and leaves the other cells alone. -/
theorem forLoop_cells (rd : σ → ι → T) (G : ι → T → T) :
    ∀ (n : Nat) (S : Fin n → ι → Prop) (body : Fin n → σ → Except ε σ),
      (∀ k k2 x, S k x → S k2 x → k = k2) →
      (∀ k s, ∃ s2, body k s = .ok s2 ∧ (∀ x, S k x → rd s2 x = G x (rd s x)) ∧
        (∀ x, ¬ S k x → rd s2 x = rd s x)) →
      ∀ s, ∃ s2, forLoop n body s = .ok s2 ∧
        (∀ x, (∃ k, S k x) → rd s2 x = G x (rd s x)) ∧
        (∀ x, (∀ k, ¬ S k x) → rd s2 x = rd s x) := by
  intro n
  induction n with
  | zero =>
    intro S body _ _ s
    exact ⟨s, rfl, fun x ⟨k, _⟩ => k.elim0, fun _ _ => rfl⟩
  | succ n ih =>
    intro S body hdisj hbody s
    obtain ⟨s1, h1, hin1, hout1⟩ := ih (fun k => S k.castSucc) (fun k => body k.castSucc)
      (fun k k2 x hk hk2 => Fin.castSucc_injective _ (hdisj _ _ x hk hk2))
      (fun k s => hbody k.castSucc s) s
    obtain ⟨s2, h2, hin2, hout2⟩ := hbody (Fin.last n) s1
    refine ⟨s2, ?_, ?_, ?_⟩
    · rw [forLoop_succ, h1]; exact h2
    · rintro x ⟨k, hk⟩
      by_cases hlast : S (Fin.last n) x
      · have hnone : ∀ k2 : Fin n, ¬ S k2.castSucc x := fun k2 hk2 =>
          (Fin.castSucc_lt_last k2).ne (hdisj _ _ x hk2 hlast)
        rw [hin2 x hlast, hout1 x hnone]
      · have hk2 : ∃ k2 : Fin n, S k2.castSucc x := by
          induction k using Fin.lastCases with
          | last => exact absurd hk hlast
          | cast k2 => exact ⟨k2, hk⟩
        rw [hout2 x hlast, hin1 x hk2]
    · intro x hx
      rw [hout2 x (hx _), hout1 x (fun k => hx _)]

/-- A loop whose every iteration `k` adds `a k` to one and the same cell `x0` and touches
nothing else runs to the end and has added the sum of the `a k` to that cell. -/
theorem forLoop_accum [AddCommMonoid T] (rd : σ → ι → T) (x0 : ι) :
    ∀ (n : Nat) (a : Fin n → T) (body : Fin n → σ → Except ε σ),
      (∀ k s, ∃ s2, body k s = .ok s2 ∧ rd s2 x0 = rd s x0 + a k ∧
        (∀ x, x ≠ x0 → rd s2 x = rd s x)) →
      ∀ s, ∃ s2, forLoop n body s = .ok s2 ∧ rd s2 x0 = rd s x0 + ∑ k, a k ∧
        (∀ x, x ≠ x0 → rd s2 x = rd s x) := by
  intro n
  induction n with
  | zero =>
    intro a body _ s
    exact ⟨s, rfl, by simp, fun _ _ => rfl⟩
  | succ n ih =>
    intro a body hbody s
    obtain ⟨s1, h1, hin1, hout1⟩ := ih (fun k => a k.castSucc) (fun k => body k.castSucc)
      (fun k s => hbody k.castSucc s) s
    obtain ⟨s2, h2, hin2, hout2⟩ := hbody (Fin.last n) s1
    refine ⟨s2, ?_, ?_, ?_⟩
    · rw [forLoop_succ, h1]; exact h2
    · rw [hin2, hin1, Fin.sum_univ_castSucc, add_assoc]
    · intro x hx
      rw [hout2 x hx, hout1 x hx]

end loops

/-- Two nested loops whose body at `(i, j)` rewrites the one cell `(i, j)` from `v` to
`G (i, j) v` run to the end and have rewritten every cell once. -/
theorem forLoop2_cells {σ ε T : Type} {n m : Nat} (rd : σ → Fin n × Fin m → T)
    (G : Fin n × Fin m → T → T) (step : Fin n → Fin m → σ → Except ε σ)
    (hstep : ∀ i j s, ∃ s2, step i j s = .ok s2 ∧ rd s2 (i, j) = G (i, j) (rd s (i, j)) ∧
      (∀ x, x ≠ (i, j) → rd s2 x = rd s x)) (s : σ) :
    ∃ s2, forLoop n (fun i r => forLoop m (fun j r2 => step i j r2) r) s = .ok s2 ∧
      ∀ x, rd s2 x = G x (rd s x) := by
  obtain ⟨s2, h, hin, _⟩ := forLoop_cells rd G n (fun i x => x.1 = i)
    (fun i r => forLoop m (fun j r2 => step i j r2) r)
    (fun k k2 x hk hk2 => hk.symm.trans hk2)
    (fun i r => by
      obtain ⟨r2, h, hin, hout⟩ := forLoop_cells rd G m (fun j x => x = (i, j))
        (fun j r2 => step i j r2)
        (fun k k2 x hk hk2 => by
          have := hk.symm.trans hk2
          exact (Prod.mk.inj this).2)
        (fun j r2 => by
          obtain ⟨r3, h3, hin3, hout3⟩ := hstep i j r2
          exact ⟨r3, h3, fun x hx => by subst hx; exact hin3, fun x hx => hout3 x hx⟩) r
      refine ⟨r2, h, fun x hx => hin x ⟨x.2, ?_⟩, fun x hx => hout x fun j hj => hx ?_⟩
      · subst hx; rfl
      · rw [hj]) s
  exact ⟨s2, h, fun x => hin x ⟨x.1, rfl⟩⟩

/-! ## Element access -/

section access

variable {T : Type} {Rows Cols : Nat}

theorem Matrix.ext_elem {M N : Matrix T Rows Cols} (h : ∀ i j, M.elem i j = N.elem i j) :
    M = N := by
  cases M; cases N
  simp only [Matrix.mk.injEq]
  exact Mathlib.Vector.ext fun i => Mathlib.Vector.ext fun j => h i j

theorem Matrix.elem_assign (M : Matrix T Rows Cols) (cell : Fin Rows × Fin Cols) (v : T)
    (i : Fin Rows) (j : Fin Cols) :
    (M.assign cell v).elem i j = if (i, j) = cell then v else M.elem i j := by
  obtain ⟨r, c⟩ := cell
  unfold Matrix.assign Matrix.elem
  by_cases hr : r = i
  · subst hr
    rw [Mathlib.Vector.get_set_same]
    by_cases hc : c = j
    · subst hc; simp
    · rw [Mathlib.Vector.get_set_of_ne hc]
      have : ¬ (r, j) = (r, c) := fun h => hc (Prod.mk.inj h).2.symm
      simp [this]
  · rw [Mathlib.Vector.get_set_of_ne hr]
    have : ¬ (i, j) = (r, c) := fun h => hr (Prod.mk.inj h).1.symm
    simp [this]

theorem Matrix.elem_assign_same (M : Matrix T Rows Cols) (i : Fin Rows) (j : Fin Cols)
    (v : T) : (M.assign (i, j) v).elem i j = v := by
  rw [Matrix.elem_assign, if_pos rfl]

theorem Matrix.elem_assign_other (M : Matrix T Rows Cols) (cell x : Fin Rows × Fin Cols)
    (v : T) (h : x ≠ cell) : (M.assign cell v).elem x.1 x.2 = M.elem x.1 x.2 := by
  rw [Matrix.elem_assign, if_neg h]

theorem Matrix.elem_ctor [Zero T] (h : Rows > 0 ∧ Cols > 0) (i : Fin Rows) (j : Fin Cols) :
    (Matrix.ctor h : Matrix T Rows Cols).elem i j = 0 := by
  simp [Matrix.ctor, Matrix.elem, Mathlib.Vector.get_replicate]

theorem Matrix.operator_call_fin (M : Matrix T Rows Cols) (i : Fin Rows) (j : Fin Cols) :
    M.operator_call i.val j.val = .ok (i, j) := by
  have h : ¬ (i.val ≥ Rows ∨ j.val ≥ Cols) := by have := i.isLt; have := j.isLt; omega
  simp [Matrix.operator_call, h]

theorem Matrix.operator_call_const_fin (M : Matrix T Rows Cols) (i : Fin Rows)
    (j : Fin Cols) : M.operator_call_const i.val j.val = .ok (M.elem i j) := by
  have h : ¬ (i.val ≥ Rows ∨ j.val ≥ Cols) := by have := i.isLt; have := j.isLt; omega
  simp [Matrix.operator_call_const, h]

end access

/-! ## What the operations compute -/

section operations

variable {T : Type} {Rows Cols C : Nat}

/-- The element-wise operations share one shape: `result(i, j) = g i j`. -/
theorem Matrix.pointwise_run [Zero T] (h : Rows > 0 ∧ Cols > 0) (g : Fin Rows → Fin Cols → T)
    (step : Fin Rows → Fin Cols → Matrix T Rows Cols → Except Failure (Matrix T Rows Cols))
    (hstep : ∀ i j r, step i j r = .ok (r.assign (i, j) (g i j))) :
    ∃ M, forLoop Rows (fun i r => forLoop Cols (fun j r2 => step i j r2) r) (Matrix.ctor h)
        = .ok M ∧ ∀ i j, M.elem i j = g i j := by
  obtain ⟨M, hrun, hM⟩ := forLoop2_cells
    (fun (r : Matrix T Rows Cols) (x : Fin Rows × Fin Cols) => r.elem x.1 x.2)
    (fun x _ => g x.1 x.2) step
    (fun i j r => ⟨r.assign (i, j) (g i j), hstep i j r, Matrix.elem_assign_same _ _ _ _,
      fun x hx => Matrix.elem_assign_other r (i, j) x _ hx⟩)
    (Matrix.ctor h)
  exact ⟨M, hrun, fun i j => hM (i, j)⟩

theorem Matrix.operator_add_run [Zero T] [Add T] (A B : Matrix T Rows Cols) :
    ∃ M, A.operator_add B = .ok M ∧ ∀ i j, M.elem i j = A.elem i j + B.elem i j :=
  Matrix.pointwise_run A.static_assert_dims (fun i j => A.elem i j + B.elem i j) _
    (fun i j r => by
      simp only [Matrix.operator_call_const_fin, Matrix.operator_call_fin]; rfl)

theorem Matrix.operator_sub_run [Zero T] [Sub T] (A B : Matrix T Rows Cols) :
    ∃ M, A.operator_sub B = .ok M ∧ ∀ i j, M.elem i j = A.elem i j - B.elem i j :=
  Matrix.pointwise_run A.static_assert_dims (fun i j => A.elem i j - B.elem i j) _
    (fun i j r => by
      simp only [Matrix.operator_call_const_fin, Matrix.operator_call_fin]; rfl)

theorem Matrix.operator_mul_scalar_run [Zero T] [Mul T] (A : Matrix T Rows Cols)
    (scalar : T) :
    ∃ M, A.operator_mul_scalar scalar = .ok M ∧ ∀ i j, M.elem i j = A.elem i j * scalar :=
  Matrix.pointwise_run A.static_assert_dims (fun i j => A.elem i j * scalar) _
    (fun i j r => by
      simp only [Matrix.operator_call_fin]; rfl)

theorem Matrix.operator_mul_run [Semiring T] (A : Matrix T Rows Cols) (B : Matrix T Cols C) :
    ∃ M, A.operator_mul B = .ok M ∧
      ∀ i j, M.elem i j = ∑ k, A.elem i k * B.elem k j := by
  unfold Matrix.operator_mul
  rw [if_pos rfl]
  obtain ⟨M, hrun, hM⟩ := forLoop2_cells
    (fun (r : Matrix T Rows C) (x : Fin Rows × Fin C) => r.elem x.1 x.2)
    (fun x v => v + ∑ k, A.elem x.1 k * B.elem k x.2)
    (fun i j result =>
      forLoop Cols (fun k result => do
        let rhs ← B.operator_call_const k.val j.val
        let cell ← result.operator_call i.val j.val
        pure (result.assign cell (result.elem cell.1 cell.2 + A.elem i k * rhs))) result)
    (fun i j r =>
      forLoop_accum (fun (r : Matrix T Rows C) (x : Fin Rows × Fin C) => r.elem x.1 x.2)
        (i, j) Cols (fun k => A.elem i k * B.elem k j) _
        (fun k r2 => by
          refine ⟨r2.assign (i, j) (r2.elem i j + A.elem i k * B.elem k j), ?_,
            Matrix.elem_assign_same _ _ _ _,
            fun x hx => Matrix.elem_assign_other r2 (i, j) x _ hx⟩
          simp only [Matrix.operator_call_const_fin, Matrix.operator_call_fin]; rfl) r)
    (Matrix.ctor ⟨A.static_assert_dims.1, B.static_assert_dims.2⟩)
  refine ⟨M, hrun, fun i j => ?_⟩
  rw [hM (i, j), Matrix.elem_ctor, zero_add]

/-- Two nested loops whose body cannot fail run to the end. -/
theorem forLoop2_ok {σ ε : Type} {n m : Nat} (step : Fin n → Fin m → σ → Except ε σ)
    (hstep : ∀ i j s, ∃ s2, step i j s = .ok s2) (s : σ) :
    ∃ s2, forLoop n (fun i r => forLoop m (fun j r2 => step i j r2) r) s = .ok s2 :=
  forLoop_ok n _ (fun i r => forLoop_ok m _ (fun j r2 => hstep i j r2) r) s

theorem Matrix.operator_mul_ok [Zero T] [Add T] [Mul T] (A : Matrix T Rows Cols)
    (B : Matrix T Cols C) : ∃ M, A.operator_mul B = .ok M := by
  unfold Matrix.operator_mul
  rw [if_pos rfl]
  exact forLoop2_ok _ (fun i j r => forLoop_ok Cols _ (fun k r2 =>
    ⟨r2.assign (i, j) (r2.elem i j + A.elem i k * B.elem k j), by
      simp only [Matrix.operator_call_const_fin, Matrix.operator_call_fin]; rfl⟩) r) _

end operations

/-! ## The specialisation: element access -/

section specialisation_access

variable {N : Nat}

theorem MatrixIntN1.vector_call_fin (v : MatrixIntN1 N) (i : Fin N) :
    v.operator_call i.val = .ok i := by
  have h : ¬ i.val ≥ N := by have := i.isLt; omega
  simp [MatrixIntN1.operator_call, h]

theorem MatrixIntN1.vector_call_const_fin (v : MatrixIntN1 N) (i : Fin N) :
    v.operator_call_const i.val = .ok (v.elem i) := by
  have h : ¬ i.val ≥ N := by have := i.isLt; omega
  simp [MatrixIntN1.operator_call_const, h]

theorem MatrixIntN1.vector_elem_assign (v : MatrixIntN1 N) (cell i : Fin N) (x : Int) :
    (v.assign cell x).elem i = if i = cell then x else v.elem i := by
  unfold MatrixIntN1.assign MatrixIntN1.elem
  by_cases h : cell = i
  · subst h; simp [Mathlib.Vector.get_set_same]
  · rw [Mathlib.Vector.get_set_of_ne h]
    have : ¬ i = cell := fun e => h e.symm
    simp [this]

theorem MatrixIntN1.vector_elem_ctor (h : N > 0) (i : Fin N) : (MatrixIntN1.ctor h).elem i = 0 := by
  simp [MatrixIntN1.ctor, MatrixIntN1.elem, Mathlib.Vector.get_replicate]

end specialisation_access

/-! ## The specialisation: the sum of `Norm` -/

theorem int_mul_exact (a b : Int) (h : INT_MIN ≤ a * b ∧ a * b ≤ INT_MAX) :
    int_mul a b = a * b := by
  unfold int_mul
  unfold INT_MIN INT_MAX at h
  generalize a * b = z at h ⊢
  omega

theorem double_round_small (z : Int) (h0 : 0 ≤ z) (h : z < 2 ^ 53) : double_round z = z := by
  unfold double_round
  have hz : z.natAbs < 2 ^ 53 := by omega
  rw [if_pos hz]

/-- Past `2^53` the accumulator rounds: `2^53 + 1` lies midway between two values of
`double` and goes to the even one, `2^53 + 3` goes up to `2^53 + 4`. -/
theorem double_round_past_53 :
    double_round (2 ^ 53 + 1) = 2 ^ 53 ∧ double_round (2 ^ 53 + 3) = 2 ^ 53 + 4 ∧
    double_round (-(2 ^ 53 + 3)) = -(2 ^ 53 + 4) := by
  decide

/-- A loop that adds whole numbers that are not negative, the sum staying below `2^53`, adds
them exactly. -/
theorem forLoop_Id_sum :
    ∀ (n : Nat) (a : Fin n → Int) (s : Int), 0 ≤ s → (∀ i, 0 ≤ a i) →
      s + ∑ i, a i < 2 ^ 53 →
      Id.run (forLoop n (fun i sum => pure (double_round (sum + a i))) s) = s + ∑ i, a i := by
  intro n
  induction n with
  | zero => intro a s _ _ _; simp [forLoop, Id.run]
  | succ n ih =>
    intro a s hs ha hlt
    rw [Fin.sum_univ_castSucc] at hlt
    have hlast := ha (Fin.last n)
    have hnn : 0 ≤ ∑ i : Fin n, a i.castSucc := Finset.sum_nonneg fun i _ => ha i.castSucc
    have h := ih (fun i => a i.castSucc) s hs (fun i => ha i.castSucc)
      (by show s + ∑ i : Fin n, a i.castSucc < 2 ^ 53; omega)
    simp only [Id.run] at h
    simp only [forLoop, Id.run, Id.bind_eq, Id.pure_eq] at h ⊢
    rw [h, Fin.sum_univ_castSucc, double_round_small _ (by omega) (by omega), add_assoc]

/-- Where every square fits `int`, in particular where every element is at most `46340` in
absolute value, and the sum of the squares is below `2^53`, the sum of `Norm` is the sum of
the squares. -/
theorem MatrixIntN1.Norm_sum_exact {N : Nat} (v : MatrixIntN1 N)
    (h : ∀ i, v.elem i * v.elem i ≤ INT_MAX) (hsum : ∑ i, v.elem i ^ 2 < 2 ^ 53) :
    v.Norm_sum = ∑ i, v.elem i ^ 2 := by
  have hmul : ∀ i, int_mul (v.elem i) (v.elem i) = v.elem i ^ 2 := fun i => by
    rw [int_mul_exact _ _ ⟨?_, h i⟩, sq]
    have := mul_self_nonneg (v.elem i)
    unfold INT_MIN
    omega
  unfold MatrixIntN1.Norm_sum
  rw [forLoop_Id_sum N (fun i => int_mul (v.elem i) (v.elem i)) 0 (le_refl 0)
    (fun i => by show 0 ≤ int_mul (v.elem i) (v.elem i); rw [hmul]; exact sq_nonneg _)
    (by rw [zero_add]; simp only [hmul]; exact hsum), zero_add]
  exact Finset.sum_congr rfl fun i _ => hmul i

theorem MatrixIntN1.Norm_sum_ctor {N : Nat} (h : N > 0) :
    (MatrixIntN1.ctor h).Norm_sum = 0 := by
  have hz : ∀ i, (MatrixIntN1.ctor h).elem i = 0 := MatrixIntN1.vector_elem_ctor h
  rw [MatrixIntN1.Norm_sum_exact _ (fun i => by rw [hz]; decide)
    (by simp only [hz]; simp)]
  simp only [hz]
  simp

/-- The root of a whole number above zero, from its significand and scale. -/
theorem std_sqrt_of_significand (x m k : Nat) (hx : 0 < x) (h : sqrt_significand x = (m, k)) :
    std_sqrt (x : Int) = some ((m : ℚ) / 2 ^ k) := by
  have h1 : ¬ ((x : Int) < 0) := by omega
  have h2 : ¬ ((x : Int) = 0) := by omega
  simp only [std_sqrt, h1, h2, if_false, Int.toNat_ofNat, h]

/-! ## The metafunction `SumSequence` -/

theorem Except_bind_ok {ε α β : Type} (a : α) (f : α → Except ε β) :
    (Except.ok a >>= f) = f a := rfl

theorem Except_bind_error {ε α β : Type} (e : ε) (f : α → Except ε β) :
    (Except.error e >>= f) = .error e := rfl

theorem constexpr_int_ok (z : Int) (h : INT_MIN ≤ z ∧ z ≤ INT_MAX) :
    constexpr_int z = .ok z := by
  unfold constexpr_int
  rw [if_pos h]

theorem constexpr_int_range (z v : Int) (h : constexpr_int z = .ok v) :
    INT_MIN ≤ v ∧ v ≤ INT_MAX := by
  unfold constexpr_int at h
  by_cases hz : INT_MIN ≤ z ∧ z ≤ INT_MAX
  · rw [if_pos hz] at h
    cases h
    exact hz
  · rw [if_neg hz] at h
    cases h

/-- The sum `n^1 + ... + n^m`, counted from `1` and counted from `0`. -/
theorem sum_pow_Icc (n : Int) (m : Nat) :
    ∑ i in Finset.Icc 1 m, n ^ i = ∑ i in Finset.range m, n ^ (i + 1) := by
  rw [Finset.range_eq_Ico, Finset.sum_Ico_add' (fun i => n ^ i) 0 m 1]
  rfl

/-- With the chain of instantiations `k + 1, k, ..., 1` inside the depth, and every product
and sum of the initialisers inside `int`, the value is the sum of the first `k + 1` powers
of `n`. -/
theorem SumSequence_eq (n : Int) (hn : INT_MIN ≤ n ∧ n ≤ INT_MAX) :
    ∀ (k fuel : Nat), k < fuel → (k : Int) + 1 ≤ INT_MAX →
      (∀ j : Nat, j < k →
        (INT_MIN ≤ n * ∑ i in Finset.range (j + 1), n ^ (i + 1) ∧
          n * ∑ i in Finset.range (j + 1), n ^ (i + 1) ≤ INT_MAX) ∧
        (INT_MIN ≤ ∑ i in Finset.range (j + 2), n ^ (i + 1) ∧
          ∑ i in Finset.range (j + 2), n ^ (i + 1) ≤ INT_MAX)) →
      SumSequence fuel n ((k : Int) + 1) = .ok (∑ i in Finset.range (k + 1), n ^ (i + 1)) := by
  intro k
  induction k with
  | zero =>
    intro fuel hf _ _
    obtain ⟨f, rfl⟩ : ∃ f, fuel = f + 1 := ⟨fuel - 1, by omega⟩
    simp [SumSequence]
  | succ k ih =>
    intro fuel hf hmax hfit
    obtain ⟨f, rfl⟩ : ∃ f, fuel = f + 1 := ⟨fuel - 1, by omega⟩
    have hne : ¬ (((k + 1 : Nat) : Int) + 1 = 1) := by omega
    have hsub : ((k + 1 : Nat) : Int) + 1 - 1 = (k : Int) + 1 := by omega
    have hk1 : INT_MIN ≤ (k : Int) + 1 ∧ (k : Int) + 1 ≤ INT_MAX := by
      unfold INT_MIN INT_MAX at *
      omega
    have hprev := ih f (by omega) hk1.2 (fun j hj => hfit j (by omega))
    obtain ⟨hleft, hsum⟩ := hfit k (by omega)
    have hstep : n * ∑ i in Finset.range (k + 1), n ^ (i + 1) + n * 1
        = ∑ i in Finset.range (k + 2), n ^ (i + 1) := by
      rw [Finset.sum_range_succ' _ (k + 1), Finset.mul_sum, mul_one, zero_add, pow_one]
      congr 1
      refine Finset.sum_congr rfl fun i _ => ?_
      rw [pow_succ (n := i + 1)]
      ring
    rw [SumSequence, if_neg hne, hsub, constexpr_int_ok _ hk1, Except_bind_ok, hprev,
      Except_bind_ok, constexpr_int_ok _ hleft, Except_bind_ok, if_neg hne,
      constexpr_int_ok (n * 1) (by rw [mul_one]; exact hn), Except_bind_ok, hstep,
      constexpr_int_ok _ hsum]

/-- A value of the primary template is a value of `int`. -/
theorem SumSequence_ok_range (fuel : Nat) (n k v : Int) (hk : k ≠ 1)
    (h : SumSequence fuel n k = .ok v) : INT_MIN ≤ v ∧ v ≤ INT_MAX := by
  cases fuel with
  | zero => cases h
  | succ f =>
    rw [SumSequence, if_neg hk] at h
    cases h1 : constexpr_int (k - 1) with
    | error e => rw [h1, Except_bind_error] at h; cases h
    | ok k1 =>
      rw [h1, Except_bind_ok] at h
      cases h2 : SumSequence f n k1 with
      | error e => rw [h2, Except_bind_error] at h; cases h
      | ok value =>
        rw [h2, Except_bind_ok] at h
        cases h3 : constexpr_int (n * value) with
        | error e => rw [h3, Except_bind_error] at h; cases h
        | ok left =>
          rw [h3, Except_bind_ok] at h
          cases h4 : constexpr_int (n * (if k = 1 then 0 else 1)) with
          | error e => rw [h4, Except_bind_error] at h; cases h
          | ok right =>
            rw [h4, Except_bind_ok] at h
            exact constexpr_int_range _ _ h

/-! ## The properties -/

/-- C1: for `A` of shape `Rows x Cols` and `B` of shape `Cols x C` over a semiring of
elements (the integers, the integers modulo `2^w`), `A * B` runs to the end and yields the
`Rows x C` matrix whose entry `(i, j)` is the sum over `k < Cols` of `A(i,k) * B(k,j)`; and
the matrices `A = [[1,2,3],[4,5,6]]`, `B = [[1,2],[3,4],[5,6]]` that `main` builds have the
product `[[22,28],[49,64]]`. -/
theorem C1_operator_mul_entries :
    (∀ (T : Type) [Semiring T] (Rows Cols C : Nat) (A : Matrix T Rows Cols)
        (B : Matrix T Cols C),
      ∃ M : Matrix T Rows C, A.operator_mul B = .ok M ∧
        ∀ (i : Fin Rows) (j : Fin C),
          M.operator_call_const i.val j.val = .ok (∑ k : Fin Cols, A.elem i k * B.elem k j)) ∧
    (main_A.map fun M => M.data.toList.map Mathlib.Vector.toList)
      = .ok [[1, 2, 3], [4, 5, 6]] ∧
    (main_B.map fun M => M.data.toList.map Mathlib.Vector.toList)
      = .ok [[1, 2], [3, 4], [5, 6]] ∧
    (main_C.map fun M => M.data.toList.map Mathlib.Vector.toList)
      = .ok [[22, 28], [49, 64]] := by
  refine ⟨fun T _ Rows Cols C A B => ?_, rfl, rfl, rfl⟩
  obtain ⟨M, hrun, hM⟩ := Matrix.operator_mul_run A B
  exact ⟨M, hrun, fun i j => by rw [Matrix.operator_call_const_fin, hM]⟩

/-- C2: `Transpose`, as the source declares it, is rejected by the compiler. On the matrix
`A` of `main`, as on every matrix, it yields no matrix, so no `R` with `R(j, i) = A(i, j)`
comes out of it. -/
theorem C2_Transpose_rejected :
    (∃ A : Matrix Int 2 3, main_A = .ok A ∧
      A.Transpose = .error .template_arguments ∧
      ¬ ∃ R : Matrix Int 3 2, A.Transpose = .ok R ∧
          ∀ (i : Fin 2) (j : Fin 3), R.operator_call_const j.val i.val = .ok (A.elem i j)) ∧
    (∀ (T : Type) (Rows Cols : Nat) (A : Matrix T Rows Cols),
      ¬ ∃ R : Matrix T Cols Rows, A.Transpose = .ok R) := by
  refine ⟨⟨⟨⟨[⟨[1, 2, 3], rfl⟩, ⟨[4, 5, 6], rfl⟩], rfl⟩, by decide⟩, rfl, rfl, ?_⟩, ?_⟩
  · rintro ⟨R, hR, _⟩
    cases hR
  · rintro T Rows Cols A ⟨R, hR⟩
    cases hR

/-- C3: both forms of the two-index `operator()` signal the out-of-range error exactly
when `row >= Rows` or `col >= Cols`, and otherwise give the stored element `data[row][col]`;
so access at `(Rows, c)` and at `(r, Cols)` signals the error, and access at
`(Rows-1, Cols-1)` gives the stored element. -/
theorem C3_operator_call_bounds (T : Type) (Rows Cols : Nat) (M : Matrix T Rows Cols) :
    (∀ row col,
      (M.operator_call_const row col = .error (.out_of_range "Matrix indices out of range")
        ↔ row ≥ Rows ∨ col ≥ Cols) ∧
      (M.operator_call row col = .error (.out_of_range "Matrix indices out of range")
        ↔ row ≥ Rows ∨ col ≥ Cols) ∧
      ((row ≥ Rows ∨ col ≥ Cols) ∨ ∃ (i : Fin Rows) (j : Fin Cols),
        i.val = row ∧ j.val = col ∧ M.operator_call_const row col = .ok (M.elem i j) ∧
        M.operator_call row col = .ok (i, j))) ∧
    (∀ c, M.operator_call_const Rows c
      = .error (.out_of_range "Matrix indices out of range")) ∧
    (∀ r, M.operator_call_const r Cols
      = .error (.out_of_range "Matrix indices out of range")) ∧
    (∃ (i : Fin Rows) (j : Fin Cols), i.val = Rows - 1 ∧ j.val = Cols - 1 ∧
      M.operator_call_const (Rows - 1) (Cols - 1) = .ok (M.elem i j) ∧
      M.operator_call (Rows - 1) (Cols - 1) = .ok (i, j)) := by
  refine ⟨fun row col => ?_, fun c => ?_, fun r => ?_, ?_⟩
  · by_cases h : row ≥ Rows ∨ col ≥ Cols
    · simp [Matrix.operator_call_const, Matrix.operator_call, h]
    · refine ⟨?_, ?_, Or.inr ⟨⟨row, by omega⟩, ⟨col, by omega⟩, rfl, rfl, ?_, ?_⟩⟩ <;>
        simp [Matrix.operator_call_const, Matrix.operator_call, h]
  · simp [Matrix.operator_call_const]
  · simp [Matrix.operator_call_const]
  · have hd := M.static_assert_dims
    refine ⟨⟨Rows - 1, by omega⟩, ⟨Cols - 1, by omega⟩, rfl, rfl, ?_, ?_⟩
    · exact Matrix.operator_call_const_fin M ⟨Rows - 1, by omega⟩ ⟨Cols - 1, by omega⟩
    · exact Matrix.operator_call_fin M ⟨Rows - 1, by omega⟩ ⟨Cols - 1, by omega⟩

/-- C4: both forms of the single-index `operator()` of `Matrix<int, N, 1>` signal the
out-of-range error exactly when `index >= N`, and otherwise give the stored element
`data[index]`; access at `N-1` gives the stored element. -/
theorem C4_vector_operator_call_bounds (N : Nat) (v : MatrixIntN1 N) :
    (∀ index,
      (v.operator_call_const index = .error (.out_of_range "Matrix index out of range")
        ↔ index ≥ N) ∧
      (v.operator_call index = .error (.out_of_range "Matrix index out of range")
        ↔ index ≥ N) ∧
      (index ≥ N ∨ ∃ i : Fin N, i.val = index ∧
        v.operator_call_const index = .ok (v.elem i) ∧ v.operator_call index = .ok i)) ∧
    (∃ i : Fin N, i.val = N - 1 ∧ v.operator_call_const (N - 1) = .ok (v.elem i) ∧
      v.operator_call (N - 1) = .ok i) := by
  refine ⟨fun index => ?_, ?_⟩
  · by_cases h : index ≥ N
    · simp [MatrixIntN1.operator_call_const, MatrixIntN1.operator_call, h]
    · refine ⟨?_, ?_, Or.inr ⟨⟨index, by omega⟩, rfl, ?_, ?_⟩⟩ <;>
        simp [MatrixIntN1.operator_call_const, MatrixIntN1.operator_call, h]
  · have hN := v.static_assert_N
    exact ⟨⟨N - 1, by omega⟩, rfl, MatrixIntN1.vector_call_const_fin v ⟨N - 1, by omega⟩,
      MatrixIntN1.vector_call_fin v ⟨N - 1, by omega⟩⟩

/-- C5: for every pair of `Rows x Cols` matrices `A` and `B`, `A + B` and `A - B` run to
the end and yield the matrices whose entry `(i, j)` is `A(i,j) + B(i,j)` and
`A(i,j) - B(i,j)`. -/
theorem C5_operator_add_sub_entries (T : Type) [Zero T] [Add T] [Sub T] (Rows Cols : Nat)
    (A B : Matrix T Rows Cols) :
    ∃ S D : Matrix T Rows Cols, A.operator_add B = .ok S ∧ A.operator_sub B = .ok D ∧
      ∀ (i : Fin Rows) (j : Fin Cols),
        S.operator_call_const i.val j.val = .ok (A.elem i j + B.elem i j) ∧
        D.operator_call_const i.val j.val = .ok (A.elem i j - B.elem i j) := by
  obtain ⟨S, hS, hSe⟩ := Matrix.operator_add_run A B
  obtain ⟨D, hD, hDe⟩ := Matrix.operator_sub_run A B
  refine ⟨S, D, hS, hD, fun i j => ?_⟩
  rw [Matrix.operator_call_const_fin, Matrix.operator_call_const_fin, hSe, hDe]
  exact ⟨rfl, rfl⟩

/-- C6: on the one-element vector holding `65536`, a value of `int`, the square formed by
`data[i] * data[i]` does not fit `int`, and the number `Norm()` hands to `std::sqrt` is `0`,
not the sum of the squares `4294967296`: the accumulator is floating point, the product is
not. -/
theorem C6_Norm_square_overflows :
    ∃ v : MatrixIntN1 1, overflow_vector = .ok v ∧
      (∀ i, v.elem i = 65536 ∧ INT_MIN ≤ v.elem i ∧ v.elem i ≤ INT_MAX) ∧
      (∃ i, INT_MAX < v.elem i * v.elem i) ∧
      v.Norm_sum = 0 ∧
      ∑ i, v.elem i ^ 2 = 4294967296 := by
  refine ⟨⟨⟨[65536], rfl⟩, by decide⟩, rfl, ?_, ⟨0, by decide⟩, rfl, by decide⟩
  intro i
  have hi : i = 0 := Subsingleton.elim _ _
  subst hi
  decide

/-- C7: for `A` (`m x n`), `B` (`n x p`) and `C` (`p x q`) over a semiring of elements (the
integers, the integers modulo `2^w`), the four products run to the end and `(A * B) * C` is
the same matrix as `A * (B * C)`. -/
theorem C7_operator_mul_assoc (T : Type) [Semiring T] (m n p q : Nat) (A : Matrix T m n)
    (B : Matrix T n p) (C : Matrix T p q) :
    ∃ (AB : Matrix T m p) (BC : Matrix T n q) (M : Matrix T m q),
      A.operator_mul B = .ok AB ∧ B.operator_mul C = .ok BC ∧
      AB.operator_mul C = .ok M ∧ A.operator_mul BC = .ok M := by
  obtain ⟨AB, hAB, eAB⟩ := Matrix.operator_mul_run A B
  obtain ⟨BC, hBC, eBC⟩ := Matrix.operator_mul_run B C
  obtain ⟨M, hM, eM⟩ := Matrix.operator_mul_run AB C
  obtain ⟨M2, hM2, eM2⟩ := Matrix.operator_mul_run A BC
  have hEq : M2 = M := by
    apply Matrix.ext_elem
    intro i l
    rw [eM, eM2]
    simp only [eAB, eBC, Finset.sum_mul, Finset.mul_sum, mul_assoc]
    exact Finset.sum_comm
  exact ⟨AB, BC, M, hAB, hBC, hM, hEq ▸ hM2⟩

/-- C8: `Transpose`, as the source declares it, is rejected by the compiler, so transposing
twice does not give the matrix back: on the matrix `A` of `main`, as on every matrix, the
first `Transpose` already yields no matrix. -/
theorem C8_Transpose_Transpose_rejected :
    (∃ A : Matrix Int 2 3, main_A = .ok A ∧
      (A.Transpose >>= fun R => R.Transpose) = .error .template_arguments ∧
      (A.Transpose >>= fun R => R.Transpose) ≠ .ok A) ∧
    (∀ (T : Type) (m n : Nat) (A : Matrix T m n),
      (A.Transpose >>= fun R => R.Transpose) ≠ .ok A) := by
  refine ⟨⟨⟨⟨[⟨[1, 2, 3], rfl⟩, ⟨[4, 5, 6], rfl⟩], rfl⟩, by decide⟩, rfl, rfl, ?_⟩, ?_⟩
  · intro h
    cases h
  · intro T m n A h
    cases h

/-- C9: for same-shape `A` and `B` over a ring of elements (the integers, the integers
modulo `2^w`), `A - B`, `B * (-1)` and `A + (B * (-1))` run to the end, and the first is the
same matrix as the last. -/
theorem C9_operator_sub_eq_add_neg (T : Type) [Ring T] (Rows Cols : Nat)
    (A B : Matrix T Rows Cols) :
    ∃ D Bneg : Matrix T Rows Cols, A.operator_sub B = .ok D ∧
      B.operator_mul_scalar (-1) = .ok Bneg ∧ A.operator_add Bneg = .ok D := by
  obtain ⟨D, hD, eD⟩ := Matrix.operator_sub_run A B
  obtain ⟨Bneg, hN, eN⟩ := Matrix.operator_mul_scalar_run B (-1)
  obtain ⟨S, hS, eS⟩ := Matrix.operator_add_run A Bneg
  have hEq : S = D := Matrix.ext_elem fun i j => by
    rw [eS, eN, eD, mul_neg_one, sub_eq_add_neg]
  exact ⟨D, Bneg, hD, hN, hEq ▸ hS⟩

/-- C10: for same-shape `A` and `B` over elements whose addition is commutative, `A + B` and
`B + A` run to the end and are the same matrix. -/
theorem C10_operator_add_comm (T : Type) [Zero T] [AddCommMagma T] (Rows Cols : Nat)
    (A B : Matrix T Rows Cols) :
    ∃ M : Matrix T Rows Cols, A.operator_add B = .ok M ∧ B.operator_add A = .ok M := by
  obtain ⟨M, hM, eM⟩ := Matrix.operator_add_run A B
  obtain ⟨M2, hM2, eM2⟩ := Matrix.operator_add_run B A
  have hEq : M2 = M := Matrix.ext_elem fun i j => by rw [eM2, eM, add_comm]
  exact ⟨M, hM, hEq ▸ hM2⟩

/-- C11: for every matrix `A` and scalar `s`, `A * s` runs to the end and yields the matrix
whose entry `(i, j)` is `A(i,j) * s`; `A * 1` is `A`, and `A * 0` is the all-zero matrix of
the same shape, which is the default-constructed one. -/
theorem C11_operator_mul_scalar (T : Type) [MulZeroOneClass T] (Rows Cols : Nat)
    (A : Matrix T Rows Cols) :
    (∀ s : T, ∃ M : Matrix T Rows Cols, A.operator_mul_scalar s = .ok M ∧
      ∀ (i : Fin Rows) (j : Fin Cols),
        M.operator_call_const i.val j.val = .ok (A.elem i j * s)) ∧
    A.operator_mul_scalar 1 = .ok A ∧
    (∃ Z : Matrix T Rows Cols, A.operator_mul_scalar 0 = .ok Z ∧
      Z = Matrix.ctor A.static_assert_dims ∧
      ∀ (i : Fin Rows) (j : Fin Cols), Z.operator_call_const i.val j.val = .ok 0) := by
  refine ⟨fun s => ?_, ?_, ?_⟩
  · obtain ⟨M, hM, eM⟩ := Matrix.operator_mul_scalar_run A s
    exact ⟨M, hM, fun i j => by rw [Matrix.operator_call_const_fin, eM]⟩
  · obtain ⟨M, hM, eM⟩ := Matrix.operator_mul_scalar_run A 1
    have hEq : M = A := Matrix.ext_elem fun i j => by rw [eM, mul_one]
    exact hEq ▸ hM
  · obtain ⟨Z, hZ, eZ⟩ := Matrix.operator_mul_scalar_run A 0
    refine ⟨Z, hZ, Matrix.ext_elem fun i j => ?_, fun i j => ?_⟩
    · rw [eZ, mul_zero, Matrix.elem_ctor]
    · rw [Matrix.operator_call_const_fin, eZ, mul_zero]

/-- C13: a default-constructed `Rows x Cols` matrix has every entry equal to the zero of the
element type, and a default-constructed `N`-element vector has every entry `0`; the result of
`operator*` is the entry of the default-constructed result, which is zero, plus the sum of
the products. -/
theorem C13_default_constructed_zero (T : Type) [Zero T] (S : Type) [Semiring S]
    (Rows Cols C N : Nat) (h : Rows > 0 ∧ Cols > 0) (hN : N > 0) :
    (∀ (i : Fin Rows) (j : Fin Cols),
      (Matrix.ctor h : Matrix T Rows Cols).elem i j = 0 ∧
      (Matrix.ctor h : Matrix T Rows Cols).operator_call_const i.val j.val = .ok 0) ∧
    (∀ i : Fin N, (MatrixIntN1.ctor hN).elem i = 0 ∧
      (MatrixIntN1.ctor hN).operator_call_const i.val = .ok 0) ∧
    (∀ (A : Matrix S Rows Cols) (B : Matrix S Cols C),
      ∃ M : Matrix S Rows C, A.operator_mul B = .ok M ∧
        ∀ (i : Fin Rows) (j : Fin C),
          (Matrix.ctor ⟨A.static_assert_dims.1, B.static_assert_dims.2⟩
            : Matrix S Rows C).elem i j = 0 ∧
          M.elem i j
            = (Matrix.ctor ⟨A.static_assert_dims.1, B.static_assert_dims.2⟩
                : Matrix S Rows C).elem i j + ∑ k : Fin Cols, A.elem i k * B.elem k j) := by
  refine ⟨fun i j => ?_, fun i => ?_, fun A B => ?_⟩
  · rw [Matrix.operator_call_const_fin, Matrix.elem_ctor]
    exact ⟨rfl, rfl⟩
  · rw [MatrixIntN1.vector_call_const_fin, MatrixIntN1.vector_elem_ctor]
    exact ⟨rfl, rfl⟩
  · obtain ⟨M, hM, eM⟩ := Matrix.operator_mul_run A B
    refine ⟨M, hM, fun i j => ⟨Matrix.elem_ctor _ i j, ?_⟩⟩
    rw [eM, Matrix.elem_ctor, zero_add]

theorem C13_default_constructed_zero_witness :
    (2 > 0 ∧ 3 > 0) ∧ 3 > 0 ∧
    (Matrix.ctor (by decide) : Matrix Int 2 3).operator_call_const 1 2 = .ok 0 ∧
    (MatrixIntN1.ctor (by decide) : MatrixIntN1 3).operator_call_const 2 = .ok 0 :=
  ⟨by decide, by decide,
    ((C13_default_constructed_zero Int Int 2 3 2 3 (by decide) (by decide)).1 1 2).2,
    ((C13_default_constructed_zero Int Int 2 3 2 3 (by decide) (by decide)).2.1 2).2⟩

/-- C14: `A * B` for `A` of shape `(Rows, Cols)` and `B` of shape `(R, C)` yields a matrix
exactly when `Cols = R`, and is rejected by the `static_assert` exactly when `Cols ≠ R`; a
`(2, 3)` matrix times a `(4, 2)` matrix is rejected whatever the two matrices hold. -/
theorem C14_operator_mul_static_assert (T : Type) [Zero T] [Add T] [Mul T]
    (Rows Cols R C : Nat)
    (A : Matrix T Rows Cols) (B : Matrix T R C) :
    (A.operator_mul B
        = .error (.static_assert "Invalid matrix dimensions for multiplication")
      ↔ Cols ≠ R) ∧
    ((∃ M : Matrix T Rows C, A.operator_mul B = .ok M) ↔ Cols = R) ∧
    (∀ (A2 : Matrix T 2 3) (B2 : Matrix T 4 2), A2.operator_mul B2
        = .error (.static_assert "Invalid matrix dimensions for multiplication")) := by
  refine ⟨?_, ?_, fun A2 B2 => ?_⟩
  · by_cases h : Cols = R
    · subst h
      obtain ⟨M, hM⟩ := Matrix.operator_mul_ok A B
      simp [hM]
    · simp [Matrix.operator_mul, h]
  · by_cases h : Cols = R
    · subst h
      obtain ⟨M, hM⟩ := Matrix.operator_mul_ok A B
      simp [hM]
    · simp [Matrix.operator_mul, h]
  · simp [Matrix.operator_mul]

/-- C15: a write through `operator()` with `row >= Rows` or `col >= Cols` (for a vector, with
`index >= N`) reports the out-of-range error and leaves the matrix (the vector) as it was;
no cell is written. -/
theorem C15_out_of_range_write (T : Type) (Rows Cols N : Nat) (M : Matrix T Rows Cols)
    (w : MatrixIntN1 N) :
    (∀ (row col : Nat) (v : T), row ≥ Rows ∨ col ≥ Cols →
      M.write_stmt row col v = (.error (.out_of_range "Matrix indices out of range"), M) ∧
      M.write row col v = .error (.out_of_range "Matrix indices out of range")) ∧
    (∀ (index : Nat) (x : Int), index ≥ N →
      w.write_stmt index x = (.error (.out_of_range "Matrix index out of range"), w) ∧
      w.write index x = .error (.out_of_range "Matrix index out of range")) := by
  refine ⟨fun row col v h => ?_, fun index x h => ?_⟩
  · have hc : M.operator_call row col
        = .error (.out_of_range "Matrix indices out of range") := by
      simp [Matrix.operator_call, h]
    constructor
    · simp only [Matrix.write_stmt, hc]
    · simp only [Matrix.write, hc]; rfl
  · have hc : w.operator_call index
        = .error (.out_of_range "Matrix index out of range") := by
      simp [MatrixIntN1.operator_call, h]
    constructor
    · simp only [MatrixIntN1.write_stmt, hc]
    · simp only [MatrixIntN1.write, hc]; rfl

/-- C16: `Transpose`, as the source declares it, is rejected by the compiler and yields no
matrix, on the matrix `A` of `main` as on every matrix; on well-shaped operands `operator*`,
`operator+`, `operator-` and the scalar `operator*` run to the end and yield a matrix, for
any element type with the operations they use, every bounds-checked access at loop
counters, `X(i, j)` with `i < Rows` and `j < Cols`, being in range. -/
theorem C16_Transpose_rejected_operators_succeed :
    (∃ A : Matrix Int 2 3, main_A = .ok A ∧
      A.Transpose = .error .template_arguments ∧
      ¬ ∃ M : Matrix Int 3 2, A.Transpose = .ok M) ∧
    (∀ (T : Type) [Zero T] [Add T] [Sub T] [Mul T] (Rows Cols C : Nat)
        (A B : Matrix T Rows Cols) (D : Matrix T Cols C) (s : T),
      (∃ M : Matrix T Rows C, A.operator_mul D = .ok M) ∧
      (∃ M : Matrix T Rows Cols, A.operator_add B = .ok M) ∧
      (∃ M : Matrix T Rows Cols, A.operator_sub B = .ok M) ∧
      (∃ M : Matrix T Rows Cols, A.operator_mul_scalar s = .ok M) ∧
      (∀ (X : Matrix T Rows Cols) (i : Fin Rows) (j : Fin Cols),
        X.operator_call i.val j.val = .ok (i, j) ∧
        X.operator_call_const i.val j.val = .ok (X.elem i j))) := by
  refine ⟨⟨⟨⟨[⟨[1, 2, 3], rfl⟩, ⟨[4, 5, 6], rfl⟩], rfl⟩, by decide⟩, rfl, rfl, ?_⟩, ?_⟩
  · rintro ⟨M, hM⟩
    cases hM
  · intro T _ _ _ _ Rows Cols C A B D s
    refine ⟨Matrix.operator_mul_ok A D, ?_, ?_, ?_, fun X i j =>
      ⟨Matrix.operator_call_fin X i j, Matrix.operator_call_const_fin X i j⟩⟩
    · obtain ⟨M, hM, _⟩ := Matrix.operator_add_run A B
      exact ⟨M, hM⟩
    · obtain ⟨M, hM, _⟩ := Matrix.operator_sub_run A B
      exact ⟨M, hM⟩
    · obtain ⟨M, hM, _⟩ := Matrix.operator_mul_scalar_run A s
      exact ⟨M, hM⟩

/-- C17: after `M(i, j) = v` at an in-range position, a read of `M(i, j)` gives `v` and a
read at every other pair of indices gives what it gave before; the same holds for
`w(k) = x` on an `N`-element vector. -/
theorem C17_write_frame (T : Type) (Rows Cols N : Nat) (M : Matrix T Rows Cols)
    (i : Fin Rows) (j : Fin Cols) (v : T) (w : MatrixIntN1 N) (k : Fin N) (x : Int) :
    (∃ M2 : Matrix T Rows Cols, M.write i.val j.val v = .ok M2 ∧
      M.write_stmt i.val j.val v = (.ok (), M2) ∧
      M2.operator_call_const i.val j.val = .ok v ∧
      ∀ row col : Nat, (row, col) ≠ (i.val, j.val) →
        M2.operator_call_const row col = M.operator_call_const row col) ∧
    (∃ w2 : MatrixIntN1 N, w.write k.val x = .ok w2 ∧
      w.write_stmt k.val x = (.ok (), w2) ∧
      w2.operator_call_const k.val = .ok x ∧
      ∀ index : Nat, index ≠ k.val →
        w2.operator_call_const index = w.operator_call_const index) := by
  constructor
  · refine ⟨M.assign (i, j) v, ?_, ?_, ?_, ?_⟩
    · simp only [Matrix.write, Matrix.operator_call_fin]; rfl
    · simp only [Matrix.write_stmt, Matrix.operator_call_fin]
    · rw [Matrix.operator_call_const_fin, Matrix.elem_assign_same]
    · intro row col hne
      unfold Matrix.operator_call_const
      by_cases h : row ≥ Rows ∨ col ≥ Cols
      · simp [h]
      · simp only [h, dite_false]
        rw [Matrix.elem_assign, if_neg]
        intro e
        apply hne
        have e1 := congrArg Fin.val (Prod.mk.inj e).1
        have e2 := congrArg Fin.val (Prod.mk.inj e).2
        exact Prod.ext e1 e2
  · refine ⟨w.assign k x, ?_, ?_, ?_, ?_⟩
    · simp only [MatrixIntN1.write, MatrixIntN1.vector_call_fin]; rfl
    · simp only [MatrixIntN1.write_stmt, MatrixIntN1.vector_call_fin]
    · rw [MatrixIntN1.vector_call_const_fin, MatrixIntN1.vector_elem_assign, if_pos rfl]
    · intro index hne
      unfold MatrixIntN1.operator_call_const
      by_cases h : index ≥ N
      · simp [h]
      · simp only [h, dite_false]
        rw [MatrixIntN1.vector_elem_assign, if_neg]
        intro e
        exact hne (congrArg Fin.val e)

/-- C12: `Norm` of the default-constructed (all-zero) vector of any size `N + 1` is exactly
`0`; `Norm` of the two-element vector holding `3` and `4` is exactly `5`; and `Norm` of the
vector `[1, 2, 3]` of `main` is the `double` nearest the square root of `14`, the sums
handed to `std::sqrt` being `0`, `25` and `14`: it has a significand of 53 binary digits,
lies within half a unit in the last place (`2^-52`) of the root, and differs from
`3.7416573867739413` by less than `10^-16`. -/
theorem C12_Norm_values :
    (∀ N : Nat, (MatrixIntN1.ctor (Nat.succ_pos N)).Norm_sum = 0 ∧
      (MatrixIntN1.ctor (Nat.succ_pos N)).Norm = some 0) ∧
    (vector_3_4.map fun v => v.data.toList) = .ok [3, 4] ∧
    vector_3_4.map MatrixIntN1.Norm_sum = .ok 25 ∧
    vector_3_4.map MatrixIntN1.Norm = .ok (some 5) ∧
    (main_vector.map fun v => v.data.toList) = .ok [1, 2, 3] ∧
    main_vector.map MatrixIntN1.Norm_sum = .ok 14 ∧
    ∃ r : ℚ, main_vector.map MatrixIntN1.Norm = .ok (some r) ∧
      r = 8425463406411593 / 2 ^ 51 ∧
      (2 : ℚ) ^ 52 ≤ 8425463406411593 ∧ (8425463406411593 : ℚ) < 2 ^ 53 ∧
      (r - 1 / 2 ^ 52) ^ 2 < 14 ∧ 14 < (r + 1 / 2 ^ 52) ^ 2 ∧
      |r - 37416573867739413 / 10 ^ 16| < 1 / 10 ^ 16 := by
  refine ⟨fun N => ?_, rfl, rfl, ?_, rfl, rfl, 8425463406411593 / 2 ^ 51, ?_, rfl, ?_⟩
  · have h0 := MatrixIntN1.Norm_sum_ctor (Nat.succ_pos N)
    refine ⟨h0, ?_⟩
    unfold MatrixIntN1.Norm
    rw [h0]
    rfl
  · have hv : vector_3_4 = .ok ⟨⟨[3, 4], rfl⟩, by decide⟩ := rfl
    have hs : (⟨⟨[3, 4], rfl⟩, by decide⟩ : MatrixIntN1 2).Norm_sum = ((25 : Nat) : Int) := rfl
    have hq := std_sqrt_of_significand 25 (5 * 2 ^ 50) 50 (by decide) (by decide)
    rw [hv]
    show Except.ok (std_sqrt _) = _
    rw [hs, hq]
    norm_num
  · have hv : main_vector = .ok ⟨⟨[1, 2, 3], rfl⟩, by decide⟩ := rfl
    have hs : (⟨⟨[1, 2, 3], rfl⟩, by decide⟩ : MatrixIntN1 3).Norm_sum = ((14 : Nat) : Int) :=
      rfl
    have hq := std_sqrt_of_significand 14 8425463406411593 51 (by decide) (by decide)
    rw [hv]
    show Except.ok (std_sqrt _) = _
    rw [hs, hq]
    norm_num
  · refine ⟨by norm_num, by norm_num, by norm_num, by norm_num, ?_⟩
    rw [abs_lt]
    constructor <;> norm_num

/-- C18, as stated, fails: `SumSequence<10, 10>` has template arguments of type `int` and
`k >= 1`, the sum `10^1 + ... + 10^10` is `11111111110`, above the greatest `int`, and the
initialiser overflows: the program is rejected, and at no depth is the value that sum. For
`SumSequence<-46341, 2>` the sum `2147441940` is a value of `int` and the product
`n * SumSequence<n, 1>::value = 2147488281` is not: the program is rejected too. -/
theorem C18_SumSequence_overflow :
    ((INT_MIN ≤ 10 ∧ (10 : Int) ≤ INT_MAX) ∧ (1 : Int) ≤ 10 ∧
      ∑ i in Finset.Icc 1 (10 : Int).toNat, (10 : Int) ^ i = 11111111110 ∧
      INT_MAX < 11111111110 ∧
      SumSequence 10 10 10 = .error .constant_overflow ∧
      ∀ fuel : Nat,
        SumSequence fuel 10 10 ≠ .ok (∑ i in Finset.Icc 1 (10 : Int).toNat, (10 : Int) ^ i)) ∧
    ((INT_MIN ≤ -46341 ∧ (-46341 : Int) ≤ INT_MAX) ∧
      ∑ i in Finset.Icc 1 (2 : Int).toNat, (-46341 : Int) ^ i = 2147441940 ∧
      (2147441940 : Int) ≤ INT_MAX ∧
      INT_MAX < (-46341 : Int) * (-46341) ∧
      SumSequence 2 (-46341) 2 = .error .constant_overflow) := by
  have h10 : ∑ i in Finset.Icc 1 (10 : Int).toNat, (10 : Int) ^ i = 11111111110 := by
    rw [sum_pow_Icc]
    decide
  have h2 : ∑ i in Finset.Icc 1 (2 : Int).toNat, (-46341 : Int) ^ i = 2147441940 := by
    rw [sum_pow_Icc]
    decide
  refine ⟨⟨by decide, by decide, h10, by decide, rfl, fun fuel h => ?_⟩,
    ⟨by decide, h2, by decide, by decide, rfl⟩⟩
  rw [h10] at h
  have hr := SumSequence_ok_range fuel 10 10 11111111110 (by decide) h
  exact absurd hr.2 (by decide)

/-- C18, amended: for template arguments `n` and `k` of type `int` with `k >= 1`, such that
for every `j` with `1 <= j < k` the product `n * (n^1 + ... + n^j)` and the sum
`n^1 + ... + n^(j+1)` are values of `int`, the chain of instantiations behind
`SumSequence<n, k>::value` ends within any depth of at least `k`, and the value is
`n^1 + n^2 + ... + n^k`; `SumSequence<3, 2>::value` is `12`. -/
theorem C18_SumSequence_value_in_int (n k : Int) (fuel : Nat)
    (hn : INT_MIN ≤ n ∧ n ≤ INT_MAX) (hk : 1 ≤ k) (hkmax : k ≤ INT_MAX)
    (hfuel : k.toNat ≤ fuel)
    (hfit : ∀ j : Nat, 1 ≤ j → (j : Int) < k →
      (INT_MIN ≤ n * ∑ i in Finset.Icc 1 j, n ^ i ∧
        n * ∑ i in Finset.Icc 1 j, n ^ i ≤ INT_MAX) ∧
      (INT_MIN ≤ ∑ i in Finset.Icc 1 (j + 1), n ^ i ∧
        ∑ i in Finset.Icc 1 (j + 1), n ^ i ≤ INT_MAX)) :
    SumSequence fuel n k = .ok (∑ i in Finset.Icc 1 k.toNat, n ^ i) ∧
    SumSequence 2 3 2 = .ok 12 := by
  refine ⟨?_, rfl⟩
  obtain ⟨m, rfl⟩ : ∃ m : Nat, k = (m : Int) + 1 := ⟨(k - 1).toNat, by omega⟩
  have ht : ((m : Int) + 1).toNat = m + 1 := by omega
  rw [ht] at hfuel ⊢
  rw [sum_pow_Icc]
  refine SumSequence_eq n hn m fuel (by omega) hkmax fun j hj => ?_
  have h := hfit (j + 1) (by omega) (by omega)
  rw [sum_pow_Icc, sum_pow_Icc] at h
  exact h

theorem C18_SumSequence_value_in_int_witness :
    (INT_MIN ≤ 2 ∧ (2 : Int) ≤ INT_MAX) ∧ (1 : Int) ≤ 3 ∧ (3 : Int) ≤ INT_MAX ∧
    (3 : Int).toNat ≤ 5 ∧
    SumSequence 5 2 3 = .ok (∑ i in Finset.Icc 1 (3 : Int).toNat, 2 ^ i) ∧
    SumSequence 5 2 3 = .ok 14 :=
  ⟨by decide, by decide, by decide, by decide,
    (C18_SumSequence_value_in_int 2 3 5 (by decide) (by decide) (by decide) (by decide)
      (fun j h1 h2 => by
        have hj : j = 1 ∨ j = 2 := by omega
        rcases hj with rfl | rfl <;> (rw [sum_pow_Icc, sum_pow_Icc]; decide))).1,
    rfl⟩



end HW3
